import Mathlib

set_option maxHeartbeats 1000000

namespace Gridgeist

/-!
Shallow embedding of the hybrid memory subsystem and the agentic tool loop:
short-term SQLite log (src/src/memory/short_term.py), long-term vector store
(src/src/memory/long_term.py), memory manager (src/src/memory/manager.py)
and the Agent loop (src/src/core/agent.py).

SQL queries that sort on the `created_at` column are embedded as relations,
because SQL leaves the relative order of rows with equal sort keys
unspecified; a result list is admissible whenever some tie-break produces it.
The `created_at` column (SQLite CURRENT_TIMESTAMP, second granularity) is a
Nat; the autoincrement primary key `id` is a Nat counter.
-/

/-- Row of the `messages` table created by ShortTermMemory._init_db. -/
structure Row where
  id : Nat
  session_id : String
  user_id : String
  role : String
  content : String
  created_at : Nat
deriving DecidableEq, Repr

/-- State of the short-term SQLite store: the rows plus the autoincrement
counter backing the `id` column. -/
structure STState where
  rows : List Row
  nextId : Nat
deriving DecidableEq, Repr

/-- ShortTermMemory.add_message: INSERT assigns the next autoincrement id;
`t` is the CURRENT_TIMESTAMP value the database stamps into created_at. -/
def addMessage (st : STState) (sid uid role content : String) (t : Nat) : STState :=
  { rows := st.rows ++ [⟨st.nextId, sid, uid, role, content, t⟩]
    nextId := st.nextId + 1 }

/-- Rows of one session, in storage (insertion) order:
WHERE session_id = ?. -/
def sessionRows (rows : List Row) (sid : String) : List Row :=
  rows.filter (fun r => r.session_id == sid)

/-- ShortTermMemory.get_message_count: SELECT COUNT(*) for the session. -/
def getMessageCount (rows : List Row) (sid : String) : Nat :=
  (sessionRows rows sid).length

/-- Admissible results of `SELECT ... ORDER BY created_at DESC LIMIT n` over
`rows`: `l` holds some min n (length rows) rows, sorted by non-increasing
created_at, and every row left out has created_at no larger than every row
kept. Ties on created_at may be resolved arbitrarily. -/
def selectTop (rows : List Row) (n : Nat) (l : List Row) : Prop :=
  ∃ rest, rows.Perm (l ++ rest) ∧ l.length = min n rows.length ∧
    l.Sorted (fun a b => b.created_at ≤ a.created_at) ∧
    ∀ y ∈ rest, ∀ x ∈ l, y.created_at ≤ x.created_at

/-- Admissible results of ShortTermMemory.get_recent_messages: the inner
query takes the top `n` rows of the session by created_at DESC, the outer
query re-sorts them by created_at ASC. -/
def recentValid (rows : List Row) (sid : String) (n : Nat) (r : List Row) : Prop :=
  ∃ l, selectTop (sessionRows rows sid) n l ∧ r.Perm l ∧
    r.Sorted (fun a b => a.created_at ≤ b.created_at)

/-- Admissible outcomes of ShortTermMemory.trim_to_limit: DELETE every row of
the session whose id is not among the ids selected by
`SELECT id ... ORDER BY created_at DESC LIMIT lim`. -/
def trimValid (rows : List Row) (sid : String) (lim : Nat) (rows' : List Row) : Prop :=
  ∃ keep, selectTop (sessionRows rows sid) lim keep ∧
    rows' = rows.filter (fun row =>
      !(row.session_id == sid) || keep.any (fun k => k.id == row.id))

/-- ShortTermMemory.clear_history: DELETE all rows of the session. -/
def clearHistory (rows : List Row) (sid : String) : List Row :=
  rows.filter (fun r => !(r.session_id == sid))

/-- Well-formed store: distinct ids, all below the autoincrement counter.
Every store reachable by addMessage from the empty store satisfies this. -/
def WFST (st : STState) : Prop :=
  (st.rows.map Row.id).Nodup ∧ ∀ r ∈ st.rows, r.id < st.nextId

/-! Long-term store (src/src/memory/long_term.py). Qdrant payload values are
strings or ints; the embedding function is an external collaborator and is
passed as a parameter, as are the fresh uuid and the current date. -/

/-- Payload value: Qdrant payloads here hold strings or ints. -/
inductive PValue where
  | s (v : String)
  | n (v : Nat)
deriving DecidableEq, Repr

/-- Python dict lookup on an association list (first match; keys kept unique
by setKey). -/
def lookupKey (d : List (String × PValue)) (k : String) : Option PValue :=
  (d.find? (fun p => p.1 == k)).map (fun p => p.2)

/-- Python `d[k] = v`: overwrite in place when the key exists, else append
(dicts preserve insertion order). -/
def setKey (d : List (String × PValue)) (k : String) (v : PValue) :
    List (String × PValue) :=
  if d.any (fun p => p.1 == k) then
    d.map (fun p => if p.1 == k then (k, v) else p)
  else d ++ [(k, v)]

/-- Python `base.update(u)`. -/
def dictUpdate (base u : List (String × PValue)) : List (String × PValue) :=
  u.foldl (fun acc p => setKey acc p.1 p.2) base

/-- LongTermMemory.save_memory lines 92-95: stamp the current date into the
metadata when the date field is absent. -/
def stampDate (metadata : List (String × PValue)) (today : String) :
    List (String × PValue) :=
  if metadata.any (fun p => p.1 == "date") then metadata
  else metadata ++ [("date", PValue.s today)]

/-- Qdrant point persisted by the long-term store. -/
structure LTPoint where
  id : String
  vector : List Int
  payload : List (String × PValue)
deriving DecidableEq, Repr

/-- Qdrant upsert: replace the point with the same id, else append. -/
def upsertPoint (store : List LTPoint) (p : LTPoint) : List LTPoint :=
  if store.any (fun q => q.id == p.id) then
    store.map (fun q => if q.id == p.id then p else q)
  else store ++ [p]

/-- LongTermMemory.save_memory: embed the text, build the payload
(text/type/importance updated with the date-stamped metadata, Python
dict.update semantics), upsert under the fresh uuid `point_id`, and return —
the Python function has no return statement, so it returns None (the first
component). -/
def saveMemory (store : List LTPoint) (embed : String → List Int)
    (point_id today text memory_type : String) (importance : Nat)
    (metadata : List (String × PValue)) : Option String × List LTPoint :=
  let vector := embed text
  let md := stampDate metadata today
  let payload := dictUpdate
    [("text", PValue.s text), ("type", PValue.s memory_type),
     ("importance", PValue.n importance)] md
  (none, upsertPoint store ⟨point_id, vector, payload⟩)

/-- Python payload.get("text", "") as rendered into the result list. -/
def textOf (p : LTPoint) : String :=
  match lookupKey p.payload "text" with
  | some (PValue.s t) => t
  | some (PValue.n k) => toString k
  | none => ""

/-- LongTermMemory.get_by_filter: scroll with exact-match conditions on every
given field, capped at `limit` (Python default 100), returning the texts. -/
def getByFilter (store : List LTPoint) (filters : List (String × PValue))
    (limit : Nat := 100) : List String :=
  ((store.filter (fun p =>
      filters.all (fun f => lookupKey p.payload f.1 == some f.2))).take limit).map textOf

/-- LongTermMemory.get_core_facts. -/
def getCoreFacts (store : List LTPoint) (user_id : String) (limit : Nat := 15) :
    List String :=
  getByFilter store [("user_id", PValue.s user_id), ("type", PValue.s "core_fact")] limit

/-- LongTermMemory.get_memory_stats: counts via get_by_filter (default limit
100) for the types core_fact, episodic and general only, optionally scoped
to a user. -/
def getMemoryStats (store : List LTPoint) (user_id : Option String) :
    List (String × Nat) :=
  let filters : List (String × PValue) :=
    match user_id with
    | some u => [("user_id", PValue.s u)]
    | none => []
  [("core_facts", (getByFilter store (filters ++ [("type", PValue.s "core_fact")])).length),
   ("episodic", (getByFilter store (filters ++ [("type", PValue.s "episodic")])).length),
   ("general", (getByFilter store (filters ++ [("type", PValue.s "general")])).length)]

/-! MemoryManager (src/src/memory/manager.py). The summarization language
model client is an external collaborator (spec section 6); it is passed as a
function from the prompt to an optional content string, where `none` models
both a raised client error (caught by the except block in
maintain_temporal_diary) and a null content (both leave the state
unchanged). -/

/-- Persistent state of one session's MemoryManager pairing. -/
structure MMState where
  session_id : String
  user_id : String
  short : STState
  long : List LTPoint
deriving DecidableEq, Repr

/-- MemoryManager.get_context, core-facts section: header plus one
"- "-prefixed line per core fact, omitted when there are none. -/
def coreSection (core_facts : List String) : List String :=
  if core_facts.isEmpty then []
  else "## CORE FACTS (Permanent User Data):" :: core_facts.map (fun f => "- " ++ f)

/-- MemoryManager.get_context, relevant-memories section: the search hits
deduplicated by exact string equality against the core facts, omitted when
none survive. -/
def memorySection (core_facts hits : List String) : List String :=
  let unique_hits := hits.filter (fun h => !(core_facts.contains h))
  if unique_hits.isEmpty then []
  else "\n## RELEVANT PAST MEMORIES (Contextual):" :: unique_hits.map (fun m => "- " ++ m)

/-- MemoryManager.get_context as the ordered list of lines it joins.
`core_facts` is the result of get_core_facts(user_id, 15) and `hits` the
result of search_memories(user_input, 5), both external inputs here (the
search ranking is an external collaborator). The search branch runs only
when user_input is truthy (non-empty). -/
def getContextParts (core_facts : List String) (user_input : String)
    (hits : List String) : List String :=
  coreSection core_facts ++
    (if user_input ≠ "" then memorySection core_facts hits else [])

/-- MemoryManager.get_context returns the sections joined with newlines. -/
def getContext (core_facts : List String) (user_input : String)
    (hits : List String) : String :=
  String.intercalate "\n" (getContextParts core_facts user_input hits)

/-- Conversation trace built by maintain_temporal_diary from the recent
messages: ROLE-uppercased lines joined by newlines. -/
def convText (msgs : List Row) : String :=
  String.intercalate "\n" (msgs.map (fun m => m.role.toUpper ++ ": " ++ m.content))

/-- Prompt of maintain_temporal_diary (quote characters around Diary Entry
elided). -/
def diaryPrompt (conv : String) : String :=
  "Write a high-quality, reflective Diary Entry for this conversation session. " ++
  "Focus on significant key topics, user preferences, decisions made, and any " ++
  "important emotional context or project progress discussed. " ++
  "Ignore trivial greet-bot chatter. Style: Concise but observationally rich.\n\n" ++
  "CONVERSATION TRACE:\n" ++ conv

/-- Admissible outcomes of MemoryManager.maintain_temporal_diary: read the 50
most recent messages (empty short-term history returns early); ask the
summary model for a diary entry (a client error or empty/null entry leaves
the state unchanged); otherwise save it as a summary record tagged with the
session id and the maintenance reason, then trim the session to 35. -/
def maintainValid (llm : String → Option String) (embed : String → List Int)
    (point_id today reason : String) (st st' : MMState) : Prop :=
  ∃ msgs, recentValid st.short.rows st.session_id 50 msgs ∧
    (msgs = [] → st' = st) ∧
    (msgs ≠ [] →
      (llm (diaryPrompt (convText msgs)) = none → st' = st) ∧
      (∀ diary, llm (diaryPrompt (convText msgs)) = some diary →
        (diary = "" → st' = st) ∧
        (diary ≠ "" →
          ∃ rows', trimValid st.short.rows st.session_id 35 rows' ∧
            st' = { st with
              long := (saveMemory st.long embed point_id today diary "summary" 7
                [("session_id", PValue.s st.session_id),
                 ("maintenance_reason", PValue.s reason)]).2,
              short := { rows := rows', nextId := st.short.nextId } })))

/-- Admissible outcomes of MemoryManager.add_interaction: append a user turn
then an assistant turn (created_at stamps t1, t2), then run diary
maintenance exactly when the session's message count exceeds 50. -/
def addInteractionValid (llm : String → Option String) (embed : String → List Int)
    (point_id today : String) (t1 t2 : Nat) (user_msg bot_msg : String)
    (st st' : MMState) : Prop :=
  let short1 := addMessage st.short st.session_id st.user_id "user" user_msg t1
  let short2 := addMessage short1 st.session_id st.user_id "assistant" bot_msg t2
  let st2 : MMState := { st with short := short2 }
  let c := getMessageCount short2.rows st.session_id
  (50 < c → maintainValid llm embed point_id today "milestone_reached" st2 st') ∧
  (¬ 50 < c → st' = st2)

/-! Agent loop (src/src/core/agent.py). The chat model client is an external
collaborator: a function from the accumulated message sequence to either a
raised error (Except.error) or a response with content and tool calls.
json.loads on the arguments, registry.get_tool, the user_id/session_id
injection and the tool body are collapsed into a parse function and a tool
table whose entries return either a result or a raised exception text. -/

/-- Tool call carried by a model response. -/
structure ToolCall where
  id : String
  name : String
  args : String
deriving DecidableEq, Repr

/-- Model response: content ("" for null) and requested tool calls. -/
structure LLMMsg where
  content : String
  tool_calls : List ToolCall
deriving DecidableEq, Repr

/-- Message of the accumulated sequence the Agent sends to the model. -/
inductive Msg where
  | sys (content : String)
  | user (content : String)
  | assistant (content : String) (tool_calls : List ToolCall)
  | tool (tool_call_id name content : String)
deriving DecidableEq, Repr

/-- Tool environment: json.loads on the arguments string (Except.error is a
raised parse exception, str(e) carried) and the registry lookup; a tool
returns a result string or raises (Except.error, str(e) carried). -/
structure ToolEnv where
  parseArgs : String → Except String String
  getTool : String → Option (String → Except String String)

/-- Body of the per-tool-call try/except in Agent.process_message: a parse
error or a tool exception becomes "Error executing tool: " ++ e, an unknown
tool becomes "Error: Tool NAME not found.", otherwise the tool's result. -/
def runToolCall (env : ToolEnv) (tc : ToolCall) : String :=
  match env.parseArgs tc.args with
  | Except.error e => "Error executing tool: " ++ e
  | Except.ok args =>
    match env.getTool tc.name with
    | none => "Error: Tool " ++ tc.name ++ " not found."
    | some f =>
      match f args with
      | Except.error e => "Error executing tool: " ++ e
      | Except.ok r => r

/-- Messages appended in one tool round: the model's tool-invocation message,
then one tool-result message per requested call, in order. -/
def expandToolCalls (env : ToolEnv) (m : LLMMsg) : List Msg :=
  Msg.assistant m.content m.tool_calls ::
    m.tool_calls.map (fun tc => Msg.tool tc.id tc.name (runToolCall env tc))

/-- Execution loop of Agent.process_message (`for _ in range(5)` enters with
fuel 5): call the model; a raised model error propagates; a response without
tool calls breaks with its content; otherwise append the expansion and
continue. Returns the final response, the number of model calls made, and
the final message sequence. Fuel exhaustion returns the initial "" as the
degraded final response. -/
def loopIter (llm : List Msg → Except String LLMMsg) (env : ToolEnv) :
    Nat → List Msg → Except String (String × Nat × List Msg)
  | 0, msgs => Except.ok ("", 0, msgs)
  | n + 1, msgs =>
    match llm msgs with
    | Except.error e => Except.error e
    | Except.ok m =>
      if m.tool_calls.isEmpty then Except.ok (m.content, 1, msgs)
      else
        match loopIter llm env n (msgs ++ expandToolCalls env m) with
        | Except.error e => Except.error e
        | Except.ok (r, k, fin) => Except.ok (r, k + 1, fin)

/-- Initial message sequence: system message, short-term history, new user
turn. -/
def initMsgs (sysContent : String) (history : List Msg) (user_input : String) :
    List Msg :=
  Msg.sys sysContent :: history ++ [Msg.user user_input]

/-- Agent.process_message up to persistence: run the loop; on success the
last two components are the arguments (user_input, final_response) passed to
add_interaction at step 4; a model error propagates to the caller before
add_interaction is reached. -/
def processMessage (llm : List Msg → Except String LLMMsg) (env : ToolEnv)
    (sysContent : String) (history : List Msg) (user_input : String) :
    Except String (String × Nat × List Msg × String × String) :=
  match loopIter llm env 5 (initMsgs sysContent history user_input) with
  | Except.error e => Except.error e
  | Except.ok (final, k, fin) => Except.ok (final, k, fin, user_input, final)

/-- Agent.process_message including the final add_interaction: an admissible
overall outcome is the propagated model error, or the final response paired
with a state reached by add_interaction(user_input, final_response). -/
def processAndPersistValid (llm : List Msg → Except String LLMMsg) (env : ToolEnv)
    (sysContent : String) (history : List Msg) (user_input : String)
    (sumLlm : String → Option String) (embed : String → List Int)
    (point_id today : String) (t1 t2 : Nat) (st : MMState)
    (res : Except String (String × MMState)) : Prop :=
  match processMessage llm env sysContent history user_input with
  | Except.error e => res = Except.error e
  | Except.ok (final, _, _, u, b) =>
    ∃ st', addInteractionValid sumLlm embed point_id today t1 t2 u b st st' ∧
      res = Except.ok (final, st')

/-- Number of model calls recorded in a process_message result. -/
def callsOf (r : Except String (String × Nat × List Msg × String × String)) :
    Option Nat :=
  match r with
  | Except.ok (_, k, _, _, _) => some k
  | Except.error _ => none

/-- Final response recorded in a process_message result. -/
def finalOf (r : Except String (String × Nat × List Msg × String × String)) :
    Option String :=
  match r with
  | Except.ok (f, _, _, _, _) => some f
  | Except.error _ => none

/-- Arguments passed to add_interaction, when the loop completed. -/
def persistOf (r : Except String (String × Nat × List Msg × String × String)) :
    Option (String × String) :=
  match r with
  | Except.ok (_, _, _, u, b) => some (u, b)
  | Except.error _ => none

/-! Concrete instances used by witnesses. -/

/-- Tool environment with a trivial parser and an empty registry. -/
def envEmpty : ToolEnv := ⟨fun s => Except.ok s, fun _ => none⟩

/-- Model client that requests a tool call on every invocation. -/
def llmAllTools : List Msg → Except String LLMMsg :=
  fun _ => Except.ok ⟨"", [⟨"1", "t", "a"⟩]⟩

/-- Model client that raises on every invocation. -/
def llmBoom : List Msg → Except String LLMMsg := fun _ => Except.error "boom"

/-- Tool call naming a tool absent from the registry. -/
def tcMissing : ToolCall := ⟨"1", "missing", "a"⟩

/-- Model client that requests the missing tool once and then answers with
plain content. -/
def llmToolOnce : List Msg → Except String LLMMsg :=
  fun msgs =>
    if msgs.length ≤ 3 then Except.ok ⟨"", [tcMissing]⟩
    else Except.ok ⟨"done", []⟩

/-- Embedding stub. -/
def embed0 : String → List Int := fun _ => []

/-- Summary model stub that always fails. -/
def sumNone : String → Option String := fun _ => none

/-- Summary model stub that always answers "D". -/
def llmD : String → Option String := fun _ => some "D"

/-- Empty manager state for session "s" and user "u". -/
def mmEmpty : MMState := ⟨"s", "u", ⟨[], 0⟩, []⟩

/-- Two same-timestamp rows of one session. -/
def rowA : Row := ⟨0, "s", "u", "user", "a", 10⟩

/-- Second same-timestamp row, later sequence. -/
def rowB : Row := ⟨1, "s", "u", "assistant", "b", 10⟩

/-- Two strictly-increasing-timestamp rows of one session. -/
def rowC : Row := ⟨0, "s", "u", "user", "a", 1⟩

/-- Second distinct-timestamp row, later sequence and later timestamp. -/
def rowD : Row := ⟨1, "s", "u", "assistant", "b", 2⟩

/-- Session with 49 stored turns, all at the same timestamp. -/
def c5Base : List Row :=
  (List.range 49).map (fun i => ⟨i, "s", "u", "user", "m", 0⟩)

/-- Manager state with the 49-turn session and an empty long-term store. -/
def c5St : MMState := ⟨"s", "u", ⟨c5Base, 49⟩, []⟩

/-- The 51 rows present after add_interaction appends its two turns. -/
def c5Rows51 : List Row :=
  c5Base ++ [⟨49, "s", "u", "user", "hi", 0⟩, ⟨50, "s", "u", "assistant", "yo", 0⟩]

/-- A valid 50-row recent window over the 51 rows. -/
def c5Msgs : List Row := c5Rows51.take 50

/-- A valid 35-row retained set after the maintenance trim. -/
def c5Kept : List Row := c5Rows51.take 35

/-- Payload of the summary record save_memory builds for diary text "D". -/
def c5Payload : List (String × PValue) :=
  [("text", PValue.s "D"), ("type", PValue.s "summary"), ("importance", PValue.n 7),
   ("session_id", PValue.s "s"), ("maintenance_reason", PValue.s "milestone_reached"),
   ("date", PValue.s "2026-01-01")]

/-- Manager state after maintenance: summary saved, session trimmed to 35. -/
def c5StAfter : MMState := ⟨"s", "u", ⟨c5Kept, 51⟩, [⟨"fid", [], c5Payload⟩]⟩

/-- Store holding exactly one summary-type record. -/
def summaryStore : List LTPoint :=
  [⟨"a", [], [("type", PValue.s "summary"), ("user_id", PValue.s "u"),
    ("text", PValue.s "T")]⟩]

/-! Helper lemmas. -/

/-- Under a model client that always requests a tool call, the loop consumes
all its fuel, makes one model call per fuel unit, and ends with the initial
empty final response. -/
theorem loop_exhausts (llm : List Msg → Except String LLMMsg) (env : ToolEnv)
    (h : ∀ msgs, ∃ m, llm msgs = Except.ok m ∧ m.tool_calls ≠ []) :
    ∀ n msgs, ∃ fin, loopIter llm env n msgs = Except.ok ("", n, fin) := by
  intro n
  induction n with
  | zero => exact fun msgs => ⟨msgs, rfl⟩
  | succ n ih =>
    intro msgs
    obtain ⟨m, hm, hne⟩ := h msgs
    obtain ⟨fin, hrec⟩ := ih (msgs ++ expandToolCalls env m)
    have hemp : m.tool_calls.isEmpty = false := by
      cases hcs : m.tool_calls with
      | nil => exact absurd hcs hne
      | cons a l => rfl
    refine ⟨fin, ?_⟩
    simp [loopIter, hm, hemp, hrec]

/-- Two sessionRows rows that are strictly ordered pairwise in id and
timestamp compare ids the way they compare timestamps. -/
theorem row_pairwise_key {sess : List Row}
    (hpw : sess.Pairwise (fun a b => a.id < b.id ∧ a.created_at < b.created_at)) :
    ∀ x ∈ sess, ∀ y ∈ sess, x ≠ y → y.created_at ≤ x.created_at → y.id < x.id := by
  have hsymm : Symmetric (fun x y : Row =>
      (x.id < y.id ∧ x.created_at < y.created_at) ∨
      (y.id < x.id ∧ y.created_at < x.created_at)) :=
    fun a b hab => hab.elim Or.inr Or.inl
  have h2 := (hpw.imp (fun h => Or.inl h)).forall hsymm
  intro x hx y hy hne hle
  rcases h2 hx hy hne with ⟨_, hts⟩ | ⟨hid, _⟩
  · exact absurd hle (not_le.mpr hts)
  · exact hid

/-- Pairwise strict id order implies no duplicate rows. -/
theorem rows_nodup {sess : List Row}
    (hpw : sess.Pairwise (fun a b => a.id < b.id ∧ a.created_at < b.created_at)) :
    sess.Nodup := by
  refine hpw.imp ?_
  rintro a b ⟨hid, _⟩ rfl
  exact lt_irrefl _ hid

/-! C1. -/

/-- C1: for every model client that returns a tool call on every invocation,
Agent.process_message performs exactly 5 model calls and then terminates with
the degraded empty final response; the outcome is a normal return (non-fatal)
and add_interaction is still reached with that empty response. -/
theorem agent_loop_bounded (llm : List Msg → Except String LLMMsg) (env : ToolEnv)
    (sysContent : String) (history : List Msg) (user_input : String)
    (h : ∀ msgs, ∃ m, llm msgs = Except.ok m ∧ m.tool_calls ≠ []) :
    callsOf (processMessage llm env sysContent history user_input) = some 5 ∧
    finalOf (processMessage llm env sysContent history user_input) = some "" ∧
    persistOf (processMessage llm env sysContent history user_input) =
      some (user_input, "") := by
  obtain ⟨fin, hfin⟩ := loop_exhausts llm env h 5 (initMsgs sysContent history user_input)
  refine ⟨?_, ?_, ?_⟩ <;> simp [processMessage, hfin, callsOf, finalOf, persistOf]

/-- Witness for C1 at a concrete always-tool-calling client. -/
theorem agent_loop_bounded_witness :
    callsOf (processMessage llmAllTools envEmpty "sys" [] "hi") = some 5 ∧
    finalOf (processMessage llmAllTools envEmpty "sys" [] "hi") = some "" ∧
    persistOf (processMessage llmAllTools envEmpty "sys" [] "hi") = some ("hi", "") :=
  agent_loop_bounded llmAllTools envEmpty "sys" [] "hi"
    (fun _ => ⟨⟨"", [⟨"1", "t", "a"⟩]⟩, rfl, by decide⟩)

/-! C7. -/

/-- C7: a raised model call propagates out of the loop from any iteration —
an error at the current call propagates (first conjunct), an error surfacing
from any later iteration propagates through the current one (second
conjunct) — and a loop error makes process_message itself return that error,
in which case the only admissible overall outcome is the propagated error:
add_interaction is never invoked and no user or assistant turn is appended
(the ok branch of processAndPersistValid, the only one that reaches
addInteractionValid, is unreachable). -/
theorem agent_model_error_propagates :
    (∀ (llm : List Msg → Except String LLMMsg) (env : ToolEnv) (n : Nat)
      (msgs : List Msg) (e : String), llm msgs = Except.error e →
      loopIter llm env (n + 1) msgs = Except.error e) ∧
    (∀ (llm : List Msg → Except String LLMMsg) (env : ToolEnv) (n : Nat)
      (msgs : List Msg) (m : LLMMsg) (e : String),
      llm msgs = Except.ok m → m.tool_calls ≠ [] →
      loopIter llm env n (msgs ++ expandToolCalls env m) = Except.error e →
      loopIter llm env (n + 1) msgs = Except.error e) ∧
    (∀ (llm : List Msg → Except String LLMMsg) (env : ToolEnv)
      (sysContent : String) (history : List Msg) (user_input e : String),
      loopIter llm env 5 (initMsgs sysContent history user_input) = Except.error e →
      processMessage llm env sysContent history user_input = Except.error e ∧
      ∀ (sumLlm : String → Option String) (embed : String → List Int)
        (point_id today : String) (t1 t2 : Nat) (st : MMState)
        (res : Except String (String × MMState)),
        processAndPersistValid llm env sysContent history user_input sumLlm embed
          point_id today t1 t2 st res → res = Except.error e) := by
  refine ⟨?_, ?_, ?_⟩
  · intro llm env n msgs e he
    simp [loopIter, he]
  · intro llm env n msgs m e hm hne hrec
    have hemp : m.tool_calls.isEmpty = false := by
      cases hcs : m.tool_calls with
      | nil => exact absurd hcs hne
      | cons a l => rfl
    simp [loopIter, hm, hemp, hrec]
  · intro llm env sysContent history user_input e hloop
    have hpm : processMessage llm env sysContent history user_input = Except.error e := by
      simp [processMessage, hloop]
    refine ⟨hpm, ?_⟩
    intro sumLlm embed point_id today t1 t2 st res hval
    rw [processAndPersistValid, hpm] at hval
    exact hval

/-- Witness for C7: the client raises immediately, the error reaches the
caller of process_message. -/
theorem agent_model_error_propagates_witness :
    processMessage llmBoom envEmpty "s" [] "hi" = Except.error "boom" ∧
    loopIter llmBoom envEmpty 5 [] = Except.error "boom" :=
  ⟨(agent_model_error_propagates.2.2 llmBoom envEmpty "s" [] "hi" "boom" rfl).1,
   agent_model_error_propagates.1 llmBoom envEmpty 4 [] "boom" rfl⟩

/-! C6. -/

/-- C6: every failing tool invocation is converted to a textual tool result
and never aborts the loop: a malformed-arguments parse exception and a
tool-raised exception become "Error executing tool: " followed by the
exception text, an unknown tool becomes "Error: Tool NAME not found.", each
failure mode yields a string starting with the error indicator "Error", and
in a run whose first response requests tool calls that all fail while the
second response is plain content, the loop appends the tool-result messages
to the sequence and still finishes with that content as the final answer
after 2 model calls. -/
theorem agent_tool_failure_isolated :
    (∀ (env : ToolEnv) (tc : ToolCall) (e : String),
      env.parseArgs tc.args = Except.error e →
      runToolCall env tc = "Error executing tool: " ++ e) ∧
    (∀ (env : ToolEnv) (tc : ToolCall) (a : String),
      env.parseArgs tc.args = Except.ok a → env.getTool tc.name = none →
      runToolCall env tc = "Error: Tool " ++ tc.name ++ " not found.") ∧
    (∀ (env : ToolEnv) (tc : ToolCall) (a : String)
      (f : String → Except String String) (e : String),
      env.parseArgs tc.args = Except.ok a → env.getTool tc.name = some f →
      f a = Except.error e → runToolCall env tc = "Error executing tool: " ++ e) ∧
    (∀ (env : ToolEnv) (tc : ToolCall),
      (env.getTool tc.name = none ∨ (∃ e, env.parseArgs tc.args = Except.error e) ∨
        (∃ a f e, env.parseArgs tc.args = Except.ok a ∧ env.getTool tc.name = some f ∧
          f a = Except.error e)) →
      ∃ t, runToolCall env tc = "Error" ++ t) ∧
    (∀ (llm : List Msg → Except String LLMMsg) (env : ToolEnv)
      (sysContent : String) (history : List Msg) (user_input : String)
      (m : LLMMsg) (c : String),
      llm (initMsgs sysContent history user_input) = Except.ok m →
      m.tool_calls ≠ [] →
      llm (initMsgs sysContent history user_input ++ expandToolCalls env m) =
        Except.ok ⟨c, []⟩ →
      processMessage llm env sysContent history user_input =
        Except.ok (c, 2,
          initMsgs sysContent history user_input ++ expandToolCalls env m,
          user_input, c) ∧
      ∀ tc ∈ m.tool_calls,
        Msg.tool tc.id tc.name (runToolCall env tc) ∈ expandToolCalls env m) := by
  refine ⟨?_, ?_, ?_, ?_, ?_⟩
  · intro env tc e he
    simp [runToolCall, he]
  · intro env tc a ha hn
    simp [runToolCall, ha, hn]
  · intro env tc a f e ha hf he
    simp [runToolCall, ha, hf, he]
  · intro env tc h
    rcases h with hn | ⟨e, he⟩ | ⟨a, f, e, ha, hf, he⟩
    · cases hp : env.parseArgs tc.args with
      | error e =>
        refine ⟨" executing tool: " ++ e, ?_⟩
        rw [show runToolCall env tc = "Error executing tool: " ++ e by
              simp [runToolCall, hp],
            show ("Error executing tool: " : String) = "Error" ++ " executing tool: "
              from rfl, String.append_assoc]
      | ok a =>
        refine ⟨": Tool " ++ tc.name ++ " not found.", ?_⟩
        rw [show runToolCall env tc = "Error: Tool " ++ tc.name ++ " not found." by
              simp [runToolCall, hp, hn],
            show ("Error: Tool " : String) = "Error" ++ ": Tool " from rfl,
            String.append_assoc, String.append_assoc, String.append_assoc]
    · refine ⟨" executing tool: " ++ e, ?_⟩
      rw [show runToolCall env tc = "Error executing tool: " ++ e by
            simp [runToolCall, he],
          show ("Error executing tool: " : String) = "Error" ++ " executing tool: "
            from rfl, String.append_assoc]
    · refine ⟨" executing tool: " ++ e, ?_⟩
      rw [show runToolCall env tc = "Error executing tool: " ++ e by
            simp [runToolCall, ha, hf, he],
          show ("Error executing tool: " : String) = "Error" ++ " executing tool: "
            from rfl, String.append_assoc]
  · intro llm env sysContent history user_input m c h1 hne h2
    have hemp : m.tool_calls.isEmpty = false := by
      cases hcs : m.tool_calls with
      | nil => exact absurd hcs hne
      | cons a l => rfl
    constructor
    · simp [processMessage, loopIter, h1, hemp, h2]
    · intro tc htc
      exact List.mem_cons_of_mem _ (List.mem_map.mpr ⟨tc, htc, rfl⟩)

/-- Witness for C6: the model requests a tool absent from the registry, the
failure is surfaced as a tool-result message and the loop still finishes
with the model's subsequent plain answer. -/
theorem agent_tool_failure_isolated_witness :
    processMessage llmToolOnce envEmpty "s" [] "hi" =
      Except.ok ("done", 2,
        [Msg.sys "s", Msg.user "hi", Msg.assistant "" [tcMissing],
         Msg.tool "1" "missing" "Error: Tool missing not found."], "hi", "done") :=
  (agent_tool_failure_isolated.2.2.2.2 llmToolOnce envEmpty "s" [] "hi"
    ⟨"", [tcMissing]⟩ "done" rfl (by decide) rfl).1

/-! C10. -/

/-- Appending a row of the same session raises the session count by one. -/
theorem getMessageCount_append_same (rows : List Row) (sid : String) (row : Row)
    (h : row.session_id = sid) :
    getMessageCount (rows ++ [row]) sid = getMessageCount rows sid + 1 := by
  simp [getMessageCount, sessionRows, List.filter_append, h]

/-- C10: when the model never stops calling tools, process_message exhausts
its 5-call budget and still persists the interaction: add_interaction runs
with the user input and the empty final response, appending a user turn and
then an assistant turn with empty content (the count bound keeps the
maintenance branch out of play, so the state change is exactly the two
appended turns). -/
theorem agent_exhaustion_persists (llm : List Msg → Except String LLMMsg)
    (env : ToolEnv) (sysContent : String) (history : List Msg) (user_input : String)
    (sumLlm : String → Option String) (embed : String → List Int)
    (point_id today : String) (t1 t2 : Nat) (st : MMState)
    (res : Except String (String × MMState))
    (h : ∀ msgs, ∃ m, llm msgs = Except.ok m ∧ m.tool_calls ≠ [])
    (hcount : getMessageCount st.short.rows st.session_id ≤ 48)
    (hval : processAndPersistValid llm env sysContent history user_input sumLlm embed
      point_id today t1 t2 st res) :
    res = Except.ok ("", { st with short :=
      { rows := st.short.rows ++
          [⟨st.short.nextId, st.session_id, st.user_id, "user", user_input, t1⟩,
           ⟨st.short.nextId + 1, st.session_id, st.user_id, "assistant", "", t2⟩],
        nextId := st.short.nextId + 2 } }) := by
  obtain ⟨fin, hfin⟩ := loop_exhausts llm env h 5 (initMsgs sysContent history user_input)
  have hpm : processMessage llm env sysContent history user_input =
      Except.ok ("", 5, fin, user_input, "") := by
    simp [processMessage, hfin]
  rw [processAndPersistValid, hpm] at hval
  obtain ⟨st', hadd, hres⟩ := hval
  rw [addInteractionValid] at hadd
  have hc : getMessageCount
      (addMessage (addMessage st.short st.session_id st.user_id "user" user_input t1)
        st.session_id st.user_id "assistant" "" t2).rows st.session_id =
      getMessageCount st.short.rows st.session_id + 2 := by
    show getMessageCount ((st.short.rows ++ [_]) ++ [_]) st.session_id = _
    rw [getMessageCount_append_same _ _ _ rfl, getMessageCount_append_same _ _ _ rfl]
  have hnot : ¬ 50 < getMessageCount
      (addMessage (addMessage st.short st.session_id st.user_id "user" user_input t1)
        st.session_id st.user_id "assistant" "" t2).rows st.session_id := by
    rw [hc]; omega
  have hst' := hadd.2 hnot
  rw [hres, hst']
  show Except.ok ("", { st with short := ⟨(st.short.rows ++ [_]) ++ [_], st.short.nextId + 1 + 1⟩ }) = _
  rw [List.append_assoc]
  rfl

/-- Witness for C10: empty starting history, always-tool-calling client; the
persisted outcome is the user turn plus the empty assistant turn. -/
theorem agent_exhaustion_persists_witness :
    (Except.ok ("", { mmEmpty with short :=
      { rows := [⟨0, "s", "u", "user", "hi", 7⟩, ⟨1, "s", "u", "assistant", "", 9⟩],
        nextId := 2 } }) : Except String (String × MMState)) =
    Except.ok ("", { mmEmpty with short :=
      { rows := mmEmpty.short.rows ++
          [⟨mmEmpty.short.nextId, mmEmpty.session_id, mmEmpty.user_id, "user", "hi", 7⟩,
           ⟨mmEmpty.short.nextId + 1, mmEmpty.session_id, mmEmpty.user_id, "assistant", "", 9⟩],
        nextId := mmEmpty.short.nextId + 2 } }) :=
  agent_exhaustion_persists llmAllTools envEmpty "sys" [] "hi" sumNone embed0
    "fid" "2026-01-01" 7 9 mmEmpty _
    (fun _ => ⟨⟨"", [⟨"1", "t", "a"⟩]⟩, rfl, by decide⟩)
    (by decide)
    (by
      rw [processAndPersistValid]
      refine ⟨{ mmEmpty with short :=
        { rows := [⟨0, "s", "u", "user", "hi", 7⟩, ⟨1, "s", "u", "assistant", "", 9⟩],
          nextId := 2 } }, ?_, rfl⟩
      rw [addInteractionValid]
      exact ⟨fun h50 => absurd h50 (by decide), fun _ => rfl⟩)

/-! C2 and C3 helper lemmas. -/

/-- Keeping a session under the trim predicate commutes with selecting the
session: the surviving session rows are the session rows whose id is among
the kept ids. -/
theorem sessionRows_filter_trim (rows : List Row) (sid : String) (keep : List Row) :
    sessionRows (rows.filter (fun row =>
      !(row.session_id == sid) || keep.any (fun k => k.id == row.id))) sid =
    (sessionRows rows sid).filter (fun row => keep.any (fun k => k.id == row.id)) := by
  simp only [sessionRows, List.filter_filter]
  apply List.filter_congr
  intro x _
  cases hq : (x.session_id == sid) <;> simp [hq]

/-- With distinct ids, filtering the session rows down to the kept ids gives
back exactly the kept rows (up to permutation). -/
theorem filter_keep_perm (sess keep rest : List Row)
    (hperm : sess.Perm (keep ++ rest))
    (hnd : (sess.map Row.id).Nodup) :
    (sess.filter (fun row => keep.any (fun k => k.id == row.id))).Perm keep := by
  have hnd2 : ((keep ++ rest).map Row.id).Nodup := ((hperm.map Row.id).nodup_iff).mp hnd
  rw [List.map_append] at hnd2
  have hdisj := (List.nodup_append.mp hnd2).2.2
  have step := hperm.filter (fun row => keep.any (fun k => k.id == row.id))
  rw [List.filter_append] at step
  have hkeep : keep.filter (fun row => keep.any (fun k => k.id == row.id)) = keep :=
    List.filter_eq_self.mpr (fun k hk => List.any_eq_true.mpr ⟨k, hk, by simp⟩)
  have hrestnil : rest.filter (fun row => keep.any (fun k => k.id == row.id)) = [] := by
    apply List.filter_eq_nil_iff.mpr
    intro y hy hany
    obtain ⟨k, hk, hkid⟩ := List.any_eq_true.mp hany
    exact hdisj (List.mem_map_of_mem _ hk)
      ((beq_iff_eq.mp hkid) ▸ List.mem_map_of_mem Row.id hy)
  rw [hkeep, hrestnil, List.append_nil] at step
  exact step

/-- Session rows inherit distinct ids from the whole table. -/
theorem sessionRows_id_nodup (rows : List Row) (sid : String)
    (hnd : (rows.map Row.id).Nodup) :
    ((sessionRows rows sid).map Row.id).Nodup :=
  hnd.sublist ((List.filter_sublist _).map Row.id)

/-- Count after a trim: with distinct ids, exactly min lim previous-count
session rows survive. -/
theorem trim_count (rows : List Row) (sid : String) (lim : Nat) (rows' : List Row)
    (hnd : (rows.map Row.id).Nodup) (h : trimValid rows sid lim rows') :
    getMessageCount rows' sid = min lim (getMessageCount rows sid) := by
  obtain ⟨keep, ⟨rest, hperm, hlen, _, _⟩, heq⟩ := h
  have hndsess := sessionRows_id_nodup rows sid hnd
  rw [heq, getMessageCount, sessionRows_filter_trim]
  rw [(filter_keep_perm _ keep rest hperm hndsess).length_eq, hlen]
  rfl

/-! C2. -/

/-- C2 counterexample: two turns of one session written at the same
created_at timestamp. The SQL query of get_recent_messages orders by
created_at only, so the result that lists the sequence-1 turn before the
sequence-0 turn is admissible, and it is not in ascending sequence order;
the claim that retrieval is ordered by the insertion counter even under
same-timestamp writes is false. -/
theorem st_recent_order_counterexample :
    2 ≤ getMessageCount [rowA, rowB] "s" ∧
    recentValid [rowA, rowB] "s" 2 [rowB, rowA] ∧
    ¬ ([rowB, rowA] : List Row).Sorted (fun a b => a.id ≤ b.id) := by
  refine ⟨by decide,
    ⟨[rowB, rowA], ⟨[], by decide, by decide, by decide, by decide⟩,
      by decide, by decide⟩,
    by decide⟩

/-- C2 amended: get_recent_messages returns min N count turns in
non-decreasing created_at order; ascending sequence order is additionally
guaranteed whenever the session's timestamps strictly increase with the
sequence (in particular it is not guaranteed under same-timestamp
writes). -/
theorem st_recent_order_amended (rows : List Row) (sid : String) (n : Nat)
    (r : List Row) (h : recentValid rows sid n r) :
    r.Sorted (fun a b => a.created_at ≤ b.created_at) ∧
    r.length = min n (getMessageCount rows sid) ∧
    ((sessionRows rows sid).Pairwise
        (fun a b => a.id < b.id ∧ a.created_at < b.created_at) →
      r.Sorted (fun a b => a.id < b.id)) := by
  obtain ⟨l, ⟨rest, hperm, hlen, hdesc, hrest⟩, hrl, hasc⟩ := h
  refine ⟨hasc, ?_, ?_⟩
  · rw [hrl.length_eq, hlen]; rfl
  · intro hpw
    have hnd_sess : (sessionRows rows sid).Nodup := rows_nodup hpw
    have hnd_lr : (l ++ rest).Nodup := (hperm.nodup_iff).mp hnd_sess
    have hnd_r : r.Nodup := (hrl.nodup_iff).mpr hnd_lr.of_append_left
    have hsub : ∀ x ∈ r, x ∈ sessionRows rows sid := fun x hx =>
      hperm.mem_iff.mpr (List.mem_append_left _ (hrl.mem_iff.mp hx))
    have hkey := row_pairwise_key hpw
    have hcomb : r.Pairwise
        (fun a b : Row => a.created_at ≤ b.created_at ∧ a ≠ b) := hasc.and hnd_r
    refine hcomb.imp_of_mem ?_
    intro a b ha hb hab
    exact hkey b (hsub b hb) a (hsub a ha) (Ne.symm hab.2) hab.1

/-- Witness for the amended C2 at strictly increasing timestamps. -/
theorem st_recent_order_amended_witness :
    ([rowC, rowD] : List Row).Sorted (fun a b => a.created_at ≤ b.created_at) :=
  (st_recent_order_amended [rowC, rowD] "s" 2 [rowC, rowD]
    ⟨[rowD, rowC], ⟨[], by decide, by decide, by decide, by decide⟩,
      by decide, by decide⟩).1

/-! C3. -/

/-- C3 counterexample: two turns of one session share a created_at
timestamp; trim_to_limit keeps by created_at only, so for limit 1 the
outcome that keeps the sequence-0 turn and deletes the single most recent
turn by sequence (sequence 1) is admissible, refuting "the retained turns
are exactly the L most recent by sequence". -/
theorem st_trim_counterexample :
    trimValid [rowA, rowB] "s" 1 [rowA] ∧
    rowB ∈ sessionRows [rowA, rowB] "s" ∧
    (∀ x ∈ sessionRows [rowA, rowB] "s", x.id ≤ rowB.id) ∧
    rowB ∉ sessionRows [rowA] "s" := by
  refine ⟨⟨[rowA], ⟨[rowB], by decide, by decide, by decide, by decide⟩, by decide⟩,
    by decide, by decide, by decide⟩

/-- C3 amended: with distinct stored ids, after trim_to_limit the session
count is min L previous-count; a second trim with the same L changes nothing
(idempotence); and the retained turns are exactly the L most recent by
sequence whenever the session's timestamps strictly increase with the
sequence — the code keeps by created_at, so this last part is not guaranteed
under same-timestamp writes. -/
theorem st_trim_amended (rows : List Row) (sid : String) (lim : Nat)
    (rows' : List Row) (hnd : (rows.map Row.id).Nodup)
    (h : trimValid rows sid lim rows') :
    getMessageCount rows' sid = min lim (getMessageCount rows sid) ∧
    (∀ rows'', trimValid rows' sid lim rows'' → rows'' = rows') ∧
    ((sessionRows rows sid).Pairwise
        (fun a b => a.id < b.id ∧ a.created_at < b.created_at) →
      ∀ x ∈ sessionRows rows' sid, ∀ y ∈ sessionRows rows sid,
        y ∉ sessionRows rows' sid → y.id < x.id) := by
  obtain ⟨keep, ⟨rest, hperm, hlen, hdesc, hrest⟩, heq⟩ := h
  have hcount := trim_count rows sid lim rows' hnd
    ⟨keep, ⟨rest, hperm, hlen, hdesc, hrest⟩, heq⟩
  refine ⟨hcount, ?_, ?_⟩
  · intro rows'' h2
    obtain ⟨keep2, ⟨rest2, hperm2, hlen2, _, _⟩, heq2⟩ := h2
    have hle : getMessageCount rows' sid ≤ lim := by
      rw [hcount]; exact min_le_left _ _
    have hlen2' : keep2.length = (sessionRows rows' sid).length := by
      rw [hlen2]; exact min_eq_right hle
    have hrestnil : rest2 = [] := by
      have hl := hperm2.length_eq
      rw [List.length_append, hlen2'] at hl
      exact List.eq_nil_of_length_eq_zero (by omega)
    subst hrestnil
    rw [List.append_nil] at hperm2
    rw [heq2]
    apply List.filter_eq_self.mpr
    intro row hrow
    by_cases hs : row.session_id = sid
    · have hmem : row ∈ sessionRows rows' sid :=
        List.mem_filter.mpr ⟨hrow, by simp [hs]⟩
      have hk2 : row ∈ keep2 := hperm2.mem_iff.mp hmem
      simp [List.any_eq_true]
      exact Or.inr ⟨row, hk2, rfl⟩
    · simp [hs]
  · intro hpw x hx y hy hynot
    have hndsess := sessionRows_id_nodup rows sid hnd
    have hsessEq : sessionRows rows' sid =
        (sessionRows rows sid).filter
          (fun row => keep.any (fun k => k.id == row.id)) := by
      rw [heq, sessionRows_filter_trim]
    rw [hsessEq] at hx hynot
    obtain ⟨hxs, hpx⟩ := List.mem_filter.mp hx
    have hpy : ¬ (keep.any (fun k => k.id == y.id) = true) := fun hpy =>
      hynot (List.mem_filter.mpr ⟨hy, hpy⟩)
    have hnd2 : ((keep ++ rest).map Row.id).Nodup :=
      ((hperm.map Row.id).nodup_iff).mp hndsess
    rw [List.map_append] at hnd2
    have hdisj := (List.nodup_append.mp hnd2).2.2
    obtain ⟨k, hk, hkid⟩ := List.any_eq_true.mp hpx
    have hxkeep : x ∈ keep := by
      rcases List.mem_append.mp (hperm.mem_iff.mp hxs) with hxk | hxr
      · exact hxk
      · exact absurd ((beq_iff_eq.mp hkid) ▸ List.mem_map_of_mem Row.id hxr)
          (fun hmem => hdisj (List.mem_map_of_mem _ hk) hmem)
    have hyrest : y ∈ rest := by
      rcases List.mem_append.mp (hperm.mem_iff.mp hy) with hyk | hyr
      · exact absurd (List.any_eq_true.mpr ⟨y, hyk, by simp⟩) hpy
      · exact hyr
    have hts : y.created_at ≤ x.created_at := hrest y hyrest x hxkeep
    have hxneqy : x ≠ y := by
      intro heqxy
      exact hdisj (List.mem_map_of_mem _ hxkeep)
        (heqxy ▸ List.mem_map_of_mem Row.id hyrest)
    exact row_pairwise_key hpw x hxs y hy hxneqy hts

/-- Witness for the amended C3 at strictly increasing timestamps. -/
theorem st_trim_amended_witness :
    getMessageCount [rowD] "s" = min 1 (getMessageCount [rowC, rowD] "s") :=
  (st_trim_amended [rowC, rowD] "s" 1 [rowD] (by decide)
    ⟨[rowD], ⟨[rowC], by decide, by decide, by decide, by decide⟩, by decide⟩).1

/-! C4. -/

/-- String append is left-cancellative. -/
theorem str_append_left_cancel {a b c : String} (h : a ++ b = a ++ c) : b = c := by
  have hd : a.data ++ b.data = a.data ++ c.data := by
    rw [← String.data_append, ← String.data_append, h]
  have hbc := List.append_cancel_left hd
  cases b; cases c; exact congrArg String.mk hbc

/-- C4: with a truthy user input, get_context lays out the core-facts section
first and the relevant-memories section after it; every core fact is
rendered in the core section; a search hit whose text exactly equals a core
fact is excluded from the relevant-memories section; every other hit is
rendered there; and the surviving hits keep their search order (they form a
sublist of the hits). -/
theorem mm_context_dedup (core_facts : List String) (user_input : String)
    (hits : List String) (h : user_input ≠ "") :
    getContextParts core_facts user_input hits =
      coreSection core_facts ++ memorySection core_facts hits ∧
    (∀ f ∈ core_facts, ("- " ++ f) ∈ coreSection core_facts) ∧
    (∀ x ∈ hits, x ∈ core_facts → ("- " ++ x) ∉ memorySection core_facts hits) ∧
    (∀ x ∈ hits, x ∉ core_facts → ("- " ++ x) ∈ memorySection core_facts hits) ∧
    (hits.filter (fun x => !(core_facts.contains x))).Sublist hits := by
  refine ⟨by simp [getContextParts, h], ?_, ?_, ?_, List.filter_sublist _⟩
  · intro f hf
    have hne : core_facts.isEmpty = false := by
      cases hcs : core_facts with
      | nil => rw [hcs] at hf; cases hf
      | cons a l => rfl
    rw [coreSection, hne]
    simp only [Bool.false_eq_true, if_false]
    exact List.mem_cons_of_mem _ (List.mem_map.mpr ⟨f, hf, rfl⟩)
  · intro x hx hxc hmem
    rw [memorySection] at hmem
    by_cases hu : (hits.filter (fun h1 => !(core_facts.contains h1))).isEmpty
    · rw [if_pos hu] at hmem
      cases hmem
    · rw [if_neg hu] at hmem
      rcases List.mem_cons.mp hmem with hhead | htail
      · have hchar : ("- " ++ x).data.head? = some '-' := by
          rw [String.data_append]; rfl
        rw [hhead] at hchar
        simp at hchar
      · obtain ⟨z, hz, hzx⟩ := List.mem_map.mp htail
        have hzz : z = x := str_append_left_cancel hzx
        subst hzz
        have := (List.mem_filter.mp hz).2
        simp [List.elem_iff] at this
        exact this hxc
  · intro x hx hxc
    have hxm : x ∈ hits.filter (fun h1 => !(core_facts.contains h1)) :=
      List.mem_filter.mpr ⟨hx, by simp [List.elem_iff]; exact hxc⟩
    have hne : (hits.filter (fun h1 => !(core_facts.contains h1))).isEmpty = false := by
      cases hcs : hits.filter (fun h1 => !(core_facts.contains h1)) with
      | nil => rw [hcs] at hxm; cases hxm
      | cons a l => rfl
    rw [memorySection, hne]
    simp only [Bool.false_eq_true, if_false]
    exact List.mem_cons_of_mem _ (List.mem_map.mpr ⟨x, hxm, rfl⟩)

/-- Witness for C4: the hit equal to the core fact "a" is deduplicated, the
hit "b" survives. -/
theorem mm_context_dedup_witness :
    getContextParts ["a"] "q" ["a", "b"] =
      coreSection ["a"] ++ memorySection ["a"] ["a", "b"] :=
  (mm_context_dedup ["a"] "q" ["a", "b"] (by decide)).1

/-! C8. -/

/-- dict.update with keys disjoint from the base and from each other is
plain concatenation. -/
theorem dictUpdate_disjoint (base u : List (String × PValue))
    (h : ∀ p ∈ u, ∀ q ∈ base, p.1 ≠ q.1) (hnd : (u.map Prod.fst).Nodup) :
    dictUpdate base u = base ++ u := by
  induction u generalizing base with
  | nil => simp [dictUpdate]
  | cons p u ih =>
    rw [List.map_cons] at hnd
    have hnd1 := List.nodup_cons.mp hnd
    have hany : base.any (fun q => q.1 == p.1) = false := by
      apply List.any_eq_false.mpr
      intro q hq hbeq
      exact h p (List.mem_cons_self _ _) q hq ((beq_iff_eq.mp hbeq).symm)
    have hstep : dictUpdate base (p :: u) = dictUpdate (base ++ [(p.1, p.2)]) u := by
      simp [dictUpdate, setKey, hany]
    rw [hstep, ih (base ++ [(p.1, p.2)]) ?hkeys ?hnd2]
    · simp
    case hkeys =>
      intro p' hp' q hq
      rcases List.mem_append.mp hq with hqb | hqp
      · exact h p' (List.mem_cons_of_mem _ hp') q hqb
      · have hq1 : q.1 = p.1 := by
          rcases List.mem_singleton.mp hqp with rfl
          rfl
        rw [hq1]
        intro heq
        exact hnd1.1 (heq ▸ List.mem_map_of_mem Prod.fst hp')
    case hnd2 => exact hnd1.2

/-- C8 counterexample: save_memory persists the record under the fresh id
but has no return statement, so the caller receives None, not the id. -/
theorem lt_save_counterexample :
    (saveMemory [] embed0 "id0" "2026-01-01" "t" "general" 5 []).1 = none ∧
    (saveMemory [] embed0 "id0" "2026-01-01" "t" "general" 5 []).1 ≠ some "id0" ∧
    (∃ p ∈ (saveMemory [] embed0 "id0" "2026-01-01" "t" "general" 5 []).2,
      p.id = "id0") := by
  refine ⟨rfl, by decide, ⟨⟨"id0", [], [("text", PValue.s "t"),
    ("type", PValue.s "general"), ("importance", PValue.n 5),
    ("date", PValue.s "2026-01-01")]⟩, by decide, rfl⟩⟩

/-- C8 amended: save_memory embeds the text, appends a point under the fresh
unique id whose payload carries the text, type and importance, stamps the
current date into the metadata exactly when the date field is absent — but
returns None to the caller rather than the id. -/
theorem lt_save_amended (store : List LTPoint) (embed : String → List Int)
    (point_id today text ty : String) (imp : Nat)
    (md : List (String × PValue))
    (hfresh : ∀ p ∈ store, p.id ≠ point_id)
    (hnd : (md.map Prod.fst).Nodup)
    (hkeys : ∀ p ∈ md, p.1 ≠ "text" ∧ p.1 ≠ "type" ∧ p.1 ≠ "importance") :
    (saveMemory store embed point_id today text ty imp md).1 = none ∧
    ∃ pt, (saveMemory store embed point_id today text ty imp md).2 = store ++ [pt] ∧
      pt.id = point_id ∧ pt.vector = embed text ∧
      lookupKey pt.payload "text" = some (PValue.s text) ∧
      lookupKey pt.payload "type" = some (PValue.s ty) ∧
      lookupKey pt.payload "importance" = some (PValue.n imp) ∧
      ((∀ p ∈ md, p.1 ≠ "date") →
        lookupKey pt.payload "date" = some (PValue.s today)) ∧
      (∀ v, lookupKey md "date" = some v →
        lookupKey pt.payload "date" = some v) := by
  have hmd' : ∀ hx : List (String × PValue), hx = stampDate md today →
      (∀ p ∈ hx, p.1 ≠ "text" ∧ p.1 ≠ "type" ∧ p.1 ≠ "importance") ∧
      (hx.map Prod.fst).Nodup := by
    intro hx hhx
    rw [stampDate] at hhx
    by_cases hdate : md.any (fun p => p.1 == "date") = true
    · rw [if_pos hdate] at hhx
      subst hhx
      exact ⟨hkeys, hnd⟩
    · rw [if_neg hdate] at hhx
      subst hhx
      constructor
      · intro p hp
        rcases List.mem_append.mp hp with hpm | hpd
        · exact hkeys p hpm
        · rcases List.mem_singleton.mp hpd with rfl
          exact ⟨(by decide : ("date" : String) ≠ "text"),
            (by decide : ("date" : String) ≠ "type"),
            (by decide : ("date" : String) ≠ "importance")⟩
      · rw [List.map_append, List.nodup_append]
        refine ⟨hnd, by simp, ?_⟩
        intro a ha hb
        rcases List.mem_singleton.mp (by simpa using hb) with rfl
        obtain ⟨p, hp, hp1⟩ := List.mem_map.mp ha
        exact (List.any_eq_false.mp (Bool.eq_false_iff.mpr hdate) p hp)
          (by simp [hp1])
  obtain ⟨hkeys', hnd'⟩ := hmd' (stampDate md today) rfl
  have hupd : dictUpdate
      [("text", PValue.s text), ("type", PValue.s ty), ("importance", PValue.n imp)]
      (stampDate md today) =
      [("text", PValue.s text), ("type", PValue.s ty), ("importance", PValue.n imp)]
        ++ stampDate md today := by
    apply dictUpdate_disjoint
    · intro p hp q hq
      obtain ⟨h1, h2, h3⟩ := hkeys' p hp
      simp only [List.mem_cons, List.not_mem_nil, or_false] at hq
      rcases hq with rfl | rfl | rfl
      · exact h1
      · exact h2
      · exact h3
    · exact hnd'
  have hany : store.any (fun q => q.id == point_id) = false := by
    apply List.any_eq_false.mpr
    intro q hq hbeq
    exact hfresh q hq (beq_iff_eq.mp hbeq)
  refine ⟨rfl, ⟨⟨point_id, embed text,
    [("text", PValue.s text), ("type", PValue.s ty), ("importance", PValue.n imp)]
      ++ stampDate md today⟩, ?_, rfl, rfl, ?_, ?_, ?_, ?_, ?_⟩⟩
  · show (saveMemory store embed point_id today text ty imp md).2 = _
    rw [saveMemory]
    simp only [hupd]
    rw [upsertPoint]
    simp [hany]
  · rw [lookupKey, List.find?_append]; rfl
  · rw [lookupKey, List.find?_append]; rfl
  · rw [lookupKey, List.find?_append]; rfl
  · intro hno
    have hdate : md.any (fun p => p.1 == "date") = false := by
      apply List.any_eq_false.mpr
      intro p hp hbeq
      exact hno p hp (beq_iff_eq.mp hbeq)
    rw [lookupKey, List.find?_append]
    have hbase : List.find? (fun p => p.1 == "date")
        [("text", PValue.s text), ("type", PValue.s ty),
         ("importance", PValue.n imp)] = none := rfl
    rw [hbase]
    rw [stampDate, hdate]
    simp only [Bool.false_eq_true, if_false]
    rw [List.find?_append]
    have hmdnone : List.find? (fun p => p.1 == "date") md = none := by
      apply List.find?_eq_none.mpr
      intro p hp hbeq
      exact hno p hp (beq_iff_eq.mp hbeq)
    rw [hmdnone]
    rfl
  · intro v hv
    rw [lookupKey] at hv
    have hsome : ∃ pr, List.find? (fun p => p.1 == "date") md = some pr ∧ pr.2 = v := by
      cases hf : List.find? (fun p => p.1 == "date") md with
      | none => rw [hf] at hv; cases hv
      | some pr => rw [hf] at hv; exact ⟨pr, rfl, by simpa using hv⟩
    obtain ⟨pr, hpr, hprv⟩ := hsome
    have hdate : md.any (fun p => p.1 == "date") = true := by
      have hm := List.find?_some hpr
      have hmem := List.mem_of_find?_eq_some hpr
      exact List.any_eq_true.mpr ⟨pr, hmem, hm⟩
    rw [lookupKey, List.find?_append]
    have hbase : List.find? (fun p => p.1 == "date")
        [("text", PValue.s text), ("type", PValue.s ty),
         ("importance", PValue.n imp)] = none := rfl
    rw [hbase, stampDate, if_pos hdate, hpr]
    simp [hprv]

/-- Witness for the amended C8. -/
theorem lt_save_amended_witness :
    (saveMemory [] embed0 "id0" "2026-01-01" "hello" "core_fact" 10
      [("user_id", PValue.s "42")]).1 = none :=
  (lt_save_amended [] embed0 "id0" "2026-01-01" "hello" "core_fact" 10
    [("user_id", PValue.s "42")] (by simp) (by simp)
    (by intro p hp; rcases List.mem_singleton.mp hp with rfl
        exact ⟨by decide, by decide, by decide⟩)).1

/-! C9. -/

/-- Count of stored records of one type following the wording of the spec:
number of records whose payload type matches, scoped to the user when one is
given. Stated for comparison with get_memory_stats. -/
def specTypeCount (store : List LTPoint) (user_id : Option String) (ty : String) : Nat :=
  (store.filter (fun p =>
    (match user_id with
     | some u => lookupKey p.payload "user_id" == some (PValue.s u)
     | none => true) &&
    (lookupKey p.payload "type" == some (PValue.s ty)))).length

/-- C9 counterexample: a store holding exactly one summary-type record. The
claim requires a count for every type in the domain including summary, but
get_memory_stats reports only core_facts, episodic and general — every
reported count is 0 while one summary record is stored, so no component of
the output is the summary count. -/
theorem lt_stats_counterexample :
    getMemoryStats summaryStore none =
      [("core_facts", 0), ("episodic", 0), ("general", 0)] ∧
    specTypeCount summaryStore none "summary" = 1 ∧
    ∀ pr ∈ getMemoryStats summaryStore none, pr.2 = 0 := by
  refine ⟨by decide, by decide, by decide⟩

/-- C9 amended: get_memory_stats returns, optionally scoped to the user, the
counts of core_fact, episodic and general records only — each capped at 100
by the default limit of get_by_filter — and reports nothing for the summary
type. -/
theorem lt_stats_amended (store : List LTPoint) (uid : Option String) :
    getMemoryStats store uid =
      [("core_facts", min 100 (specTypeCount store uid "core_fact")),
       ("episodic", min 100 (specTypeCount store uid "episodic")),
       ("general", min 100 (specTypeCount store uid "general"))] := by
  cases uid <;>
    simp [getMemoryStats, getByFilter, specTypeCount, List.length_take]

/-! C5. -/

/-- The upserted point is present after an upsert. -/
theorem upsertPoint_mem (store : List LTPoint) (p : LTPoint) :
    p ∈ upsertPoint store p := by
  rw [upsertPoint]
  cases hb : store.any (fun q => q.id == p.id) with
  | true =>
    simp only [if_true]
    obtain ⟨q, hq, hqid⟩ := List.any_eq_true.mp hb
    exact List.mem_map.mpr ⟨q, hq, by simp [hqid]⟩
  | false => simp

/-- add_message preserves well-formedness of the short-term store. -/
theorem wfst_addMessage (st : STState) (sid uid role content : String) (t : Nat)
    (h : WFST st) : WFST (addMessage st sid uid role content t) := by
  obtain ⟨hnd, hlt⟩ := h
  constructor
  · rw [addMessage]
    simp only [List.map_append, List.map_cons, List.map_nil]
    rw [List.nodup_append]
    refine ⟨hnd, by simp, ?_⟩
    intro a ha hb
    rcases List.mem_singleton.mp (by simpa using hb) with rfl
    obtain ⟨r, hr, hrid⟩ := List.mem_map.mp ha
    exact absurd (hrid ▸ hlt r hr) (lt_irrefl _)
  · intro r hr
    rcases List.mem_append.mp hr with hro | hrn
    · exact Nat.lt_succ_of_lt (hlt r hro)
    · rcases List.mem_singleton.mp hrn with rfl
      exact Nat.lt_succ_self _

/-- C5: whenever the session already holds at least 49 turns (so the two
turns appended by add_interaction push the count past the threshold of 50),
the summary model yields a non-empty diary entry, and the store is
well-formed, every admissible add_interaction outcome runs maintenance: the
long-term store gains a summary-type record whose payload is tagged with the
session id and the maintenance reason milestone_reached, and the session's
short-term count is 35 afterward. -/
theorem mm_maintenance_runs (llm : String → Option String)
    (embed : String → List Int) (point_id today : String) (t1 t2 : Nat)
    (user_msg bot_msg : String) (st st' : MMState)
    (hwf : WFST st.short)
    (hcount : 49 ≤ getMessageCount st.short.rows st.session_id)
    (hllm : ∀ s, ∃ d, llm s = some d ∧ d ≠ "")
    (h : addInteractionValid llm embed point_id today t1 t2 user_msg bot_msg st st') :
    (∃ p ∈ st'.long,
      lookupKey p.payload "type" = some (PValue.s "summary") ∧
      lookupKey p.payload "session_id" = some (PValue.s st.session_id) ∧
      lookupKey p.payload "maintenance_reason" =
        some (PValue.s "milestone_reached")) ∧
    getMessageCount st'.short.rows st.session_id = 35 := by
  obtain ⟨h1, _⟩ := h
  have hc2 : getMessageCount
      (addMessage (addMessage st.short st.session_id st.user_id "user" user_msg t1)
        st.session_id st.user_id "assistant" bot_msg t2).rows st.session_id =
      getMessageCount st.short.rows st.session_id + 2 := by
    show getMessageCount ((st.short.rows ++ [_]) ++ [_]) st.session_id = _
    rw [getMessageCount_append_same _ _ _ rfl, getMessageCount_append_same _ _ _ rfl]
  have h50 : 50 < getMessageCount
      (addMessage (addMessage st.short st.session_id st.user_id "user" user_msg t1)
        st.session_id st.user_id "assistant" bot_msg t2).rows st.session_id := by
    rw [hc2]; omega
  have hmv := h1 h50
  obtain ⟨msgs, hrec, _, himp⟩ := hmv
  have hrec' : recentValid
      (addMessage (addMessage st.short st.session_id st.user_id "user" user_msg t1)
        st.session_id st.user_id "assistant" bot_msg t2).rows
      st.session_id 50 msgs := hrec
  have hmlen : msgs.length = 50 := by
    obtain ⟨l, ⟨rest, hperm, hlen, _, _⟩, hrl, _⟩ := hrec'
    rw [hrl.length_eq, hlen]
    have hge : 50 ≤ (sessionRows
        (addMessage (addMessage st.short st.session_id st.user_id "user" user_msg t1)
          st.session_id st.user_id "assistant" bot_msg t2).rows st.session_id).length := by
      have := hc2
      rw [getMessageCount] at this
      omega
    exact min_eq_left hge
  have hne : msgs ≠ [] := by
    intro hnil
    rw [hnil] at hmlen
    exact absurd hmlen (by decide)
  obtain ⟨d, hd, hdne⟩ := hllm (diaryPrompt (convText msgs))
  obtain ⟨rows', htrim, hst'⟩ := ((himp hne).2 d hd).2 hdne
  have htrim' : trimValid
      (addMessage (addMessage st.short st.session_id st.user_id "user" user_msg t1)
        st.session_id st.user_id "assistant" bot_msg t2).rows
      st.session_id 35 rows' := htrim
  have hwf2 : WFST (addMessage (addMessage st.short st.session_id st.user_id "user"
      user_msg t1) st.session_id st.user_id "assistant" bot_msg t2) :=
    wfst_addMessage _ _ _ _ _ _ (wfst_addMessage _ _ _ _ _ _ hwf)
  subst hst'
  constructor
  · exact ⟨⟨point_id, embed d,
      dictUpdate [("text", PValue.s d), ("type", PValue.s "summary"),
        ("importance", PValue.n 7)]
        (stampDate [("session_id", PValue.s st.session_id),
          ("maintenance_reason", PValue.s "milestone_reached")] today)⟩,
      upsertPoint_mem _ _, rfl, rfl, rfl⟩
  · show getMessageCount rows' st.session_id = 35
    rw [trim_count _ _ _ _ hwf2.1 htrim', hc2]
    have : 35 ≤ getMessageCount st.short.rows st.session_id + 2 := by omega
    exact min_eq_left this

/-- Concrete admissible add_interaction run for the C5 witness: 49 stored
turns, the model answers "D", maintenance saves the summary and trims to
35. -/
theorem c5_addValid :
    addInteractionValid llmD embed0 "fid" "2026-01-01" 0 0 "hi" "yo"
      c5St c5StAfter := by
  refine ⟨fun _ => ?_, fun hn => absurd (by decide) hn⟩
  refine ⟨c5Msgs, ?_, fun hnil => absurd hnil (by decide), fun _ => ?_⟩
  · exact ⟨c5Msgs, ⟨c5Rows51.drop 50, by decide, by decide, by decide, by decide⟩,
      by decide, by decide⟩
  · refine ⟨fun hnone => by simp [llmD] at hnone, ?_⟩
    intro diary hdiary
    have hdd : diary = "D" := (Option.some.inj hdiary).symm
    subst hdd
    refine ⟨fun hD => absurd hD (by decide), fun _ => ⟨c5Kept, ?_, ?_⟩⟩
    · exact ⟨c5Kept, ⟨c5Rows51.drop 35, by decide, by decide, by decide, by decide⟩,
        by decide⟩
    · decide

/-- Witness for C5: after the concrete run the session count is 35. -/
theorem mm_maintenance_runs_witness :
    getMessageCount c5StAfter.short.rows c5St.session_id = 35 :=
  (mm_maintenance_runs llmD embed0 "fid" "2026-01-01" 0 0 "hi" "yo" c5St c5StAfter
    ⟨by decide, by decide⟩ (by decide) (fun _ => ⟨"D", rfl, by decide⟩) c5_addValid).2

end Gridgeist
